import Mathlib

/-!
Verification development for the food-image front end (prompt construction,
endpoint dispatch, payload adaptation, and error normalization).

The definitions below are a shallow embedding of the orchestration layer of
the JavaScript sources: the three-model variant (endpoints for style,
background removal and quality improvement, its `handleGenerateClick`
validation and dispatch, `buildPrompt`, `fileToBase64`, the error-message
truncation of `callStyleGeneration`/`callBackgroundRemoval`) and the
single-endpoint variant's `generateImage` error message (300-character
truncation bound).  JavaScript values that may be `null`/`undefined` are
modelled with `Option`; JavaScript numbers (segmentation scores) with `ℚ`;
strings with Lean `String`/`List Char`.
-/

/-- A segmentation candidate as returned by the background-removal endpoint:
a JSON object that may carry a numeric `score` and a base64 `mask` string.
A missing field is `none`. -/
structure Candidate where
  score : Option ℚ
  mask : Option String
  deriving DecidableEq

/-- JavaScript `item.score > acc.score` on possibly-missing scores: any
comparison involving `undefined` is `false`. -/
def scoreGt : Option ℚ → Option ℚ → Bool
  | some x, some y => decide (y < x)
  | _, _ => false

/-- One step of the `reduce` in `callBackgroundRemoval`:
`!acc || (item && item.score > acc.score) ? item : acc`.
A `none` models a falsy array entry (e.g. `null`). -/
def stepBest : Option Candidate → Option Candidate → Option Candidate
  | none, item => item
  | some a, none => some a
  | some a, some i => if scoreGt i.score a.score then some i else some a

/-- `data.reduce(...)` on a non-empty array: the accumulator starts at the
first element and is folded through the rest with `stepBest`. -/
def pickBest (first : Option Candidate) (rest : List (Option Candidate)) : Option Candidate :=
  rest.foldl stepBest first

/-- Outcome of the decode path of `callBackgroundRemoval` after a successful
HTTP response. -/
inductive BgResult where
  | emptyResult
  | missingField
  | mask (dataUrl : String)
  deriving DecidableEq

/-- Decode path of `callBackgroundRemoval`: the parsed JSON body is `none`
when it is not an array, otherwise the list of entries.  Mirrors
`!Array.isArray(data) || data.length === 0`, the score `reduce`, and
`!best || !best.mask` (so an empty-string mask is treated as missing, since
`""` is falsy in JavaScript). -/
def decodeBg : Option (List (Option Candidate)) → BgResult
  | none => .emptyResult
  | some [] => .emptyResult
  | some (c :: cs) =>
    match pickBest c cs with
    | none => .missingField
    | some b =>
      match b.mask with
      | none => .missingField
      | some m => if m = "" then .missingField else .mask ("data:image/png;base64," ++ m)

/-- A candidate that actually has a numeric score, given as a
(score, optional mask) pair. -/
def toCand (p : ℚ × Option String) : Candidate :=
  ⟨some p.1, p.2⟩

/-- Pure argmax fold on (score, mask) pairs; `pickBest` agrees with it on
arrays whose entries all have numeric scores. -/
def bestP (p : ℚ × Option String) (ps : List (ℚ × Option String)) : ℚ × Option String :=
  ps.foldl (fun a i => if a.1 < i.1 then i else a) p

theorem stepBest_toCand (a i : ℚ × Option String) :
    stepBest (some (toCand a)) (some (toCand i)) =
      some (toCand (if a.1 < i.1 then i else a)) := by
  simp only [stepBest, toCand, scoreGt]
  split <;> rename_i h
  · rw [if_pos (of_decide_eq_true h)]
  · rw [if_neg (fun hc => h (decide_eq_true hc))]

theorem pickBest_toCand (ps : List (ℚ × Option String)) (p : ℚ × Option String) :
    pickBest (some (toCand p)) ((ps.map toCand).map some) = some (toCand (bestP p ps)) := by
  induction ps generalizing p with
  | nil => rfl
  | cons i t ih =>
    simp only [List.map_cons, pickBest, List.foldl_cons, stepBest_toCand, bestP] at *
    exact ih _

theorem bestP_first_argmax (ps : List (ℚ × Option String)) (p : ℚ × Option String) :
    ∃ l₁ l₂, p :: ps = l₁ ++ bestP p ps :: l₂ ∧
      (∀ x ∈ p :: ps, x.1 ≤ (bestP p ps).1) ∧
      (∀ x ∈ l₁, x.1 < (bestP p ps).1) := by
  induction ps generalizing p with
  | nil =>
    refine ⟨[], [], rfl, ?_, ?_⟩
    · intro x hx
      simp only [List.mem_singleton] at hx
      subst hx
      exact le_refl _
    · intro x hx
      simp at hx
  | cons i t ih =>
    have hstep : bestP p (i :: t) = bestP (if p.1 < i.1 then i else p) t := by
      simp only [bestP, List.foldl_cons]
    by_cases hpi : p.1 < i.1
    · -- accumulator becomes i; p is strictly below everything kept
      rw [if_pos hpi] at hstep
      obtain ⟨l₁, l₂, hdec, hmax, hfirst⟩ := ih i
      refine ⟨p :: l₁, l₂, ?_, ?_, ?_⟩
      · rw [hstep, List.cons_append, ← hdec]
      · intro x hx
        rw [hstep]
        rcases List.mem_cons.mp hx with hx | hx
        · subst hx
          exact le_of_lt (lt_of_lt_of_le hpi (hmax i (List.mem_cons_self i t)))
        · exact hmax x hx
      · intro x hx
        rw [hstep]
        rcases List.mem_cons.mp hx with hx | hx
        · subst hx
          exact lt_of_lt_of_le hpi (hmax i (List.mem_cons_self i t))
        · exact hfirst x hx
    · -- accumulator stays p; i is dropped but bounded by p
      rw [if_neg hpi] at hstep
      have hip : i.1 ≤ p.1 := le_of_not_lt hpi
      obtain ⟨l₁, l₂, hdec, hmax, hfirst⟩ := ih p
      have hpb : p.1 ≤ (bestP p t).1 := hmax p (List.mem_cons_self p t)
      cases l₁ with
      | nil =>
        simp only [List.nil_append] at hdec
        have hb : bestP p t = p := (((List.cons.injEq _ _ _ _).mp hdec).1).symm
        refine ⟨[], i :: t, ?_, ?_, ?_⟩
        · rw [hstep, hb, List.nil_append]
        · intro x hx
          rw [hstep, hb]
          rcases List.mem_cons.mp hx with hx | hx
          · subst hx; exact le_refl _
          · rcases List.mem_cons.mp hx with hx | hx
            · subst hx; exact hip
            · have := hmax x (List.mem_cons_of_mem p hx)
              rw [hb] at this
              exact this
        · intro x hx
          simp at hx
      | cons q l₁' =>
        have hq : q = p ∧ t = l₁' ++ bestP p t :: l₂ := by
          rw [List.cons_append] at hdec
          exact ⟨((List.cons.injEq _ _ _ _).mp hdec).1.symm,
                 ((List.cons.injEq _ _ _ _).mp hdec).2⟩
        have hpl : p ∈ q :: l₁' := by rw [hq.1]; exact List.mem_cons_self _ _
        have hpstrict : p.1 < (bestP p t).1 := hfirst p hpl
        refine ⟨p :: i :: l₁', l₂, ?_, ?_, ?_⟩
        · rw [hstep]
          simp only [List.cons_append]
          rw [← hq.2]
        · intro x hx
          rw [hstep]
          rcases List.mem_cons.mp hx with hx | hx
          · subst hx; exact hpb
          · rcases List.mem_cons.mp hx with hx | hx
            · subst hx; exact le_trans hip hpb
            · have := hmax x (List.mem_cons_of_mem p hx)
              exact this
        · intro x hx
          rw [hstep]
          rcases List.mem_cons.mp hx with hx | hx
          · subst hx; exact hpstrict
          · rcases List.mem_cons.mp hx with hx | hx
            · subst hx; exact lt_of_le_of_lt hip hpstrict
            · exact hfirst x (by rw [hq.1]; exact List.mem_cons_of_mem _ hx)

/-- Claim C1: for every non-empty array of segmentation candidates with
numeric scores, the `reduce` of the BackgroundCleaning decode path selects
exactly the candidate with the maximum score, and when several candidates
share the maximum it selects the first such candidate in iteration order:
the selected candidate `b` splits the array into a strictly-smaller-scored
part before it and arbitrary entries after it, with no entry scoring above
it. -/
theorem claim1_mask_selection (p : ℚ × Option String) (ps : List (ℚ × Option String)) :
    ∃ b l₁ l₂,
      pickBest (some (toCand p)) ((ps.map toCand).map some) = some (toCand b) ∧
      p :: ps = l₁ ++ b :: l₂ ∧
      (∀ x ∈ p :: ps, x.1 ≤ b.1) ∧
      (∀ x ∈ l₁, x.1 < b.1) := by
  obtain ⟨l₁, l₂, hdec, hmax, hfirst⟩ := bestP_first_argmax ps p
  exact ⟨bestP p ps, l₁, l₂, pickBest_toCand ps p, hdec, hmax, hfirst⟩

/-- Predicate for the `!best || !best.mask` guard being taken: the selected
entry is falsy, has no `mask` field, or has a falsy (empty-string) mask. -/
def maskFalsy : Option Candidate → Prop
  | none => True
  | some b => b.mask = none ∨ b.mask = some ""

/-- Amended claim C5: the BackgroundCleaning decode path yields `EmptyResult`
exactly when the parsed response is not a non-empty JSON array; it yields
`MissingField` exactly when the selected maximum-score entry is falsy, lacks
a `mask` field, or carries an empty (falsy) mask string; otherwise it returns
the selected entry's non-empty mask as a data-URL image. -/
theorem claim5_decode_characterization :
    (∀ d : Option (List (Option Candidate)),
      (decodeBg d = .emptyResult ↔ d = none ∨ d = some [])) ∧
    (∀ (c : Option Candidate) (cs : List (Option Candidate)),
      (decodeBg (some (c :: cs)) = .missingField ↔ maskFalsy (pickBest c cs))) ∧
    (∀ (c : Option Candidate) (cs : List (Option Candidate)) (b : Candidate) (m : String),
      pickBest c cs = some b → b.mask = some m → m ≠ "" →
      decodeBg (some (c :: cs)) = .mask ("data:image/png;base64," ++ m)) := by
  refine ⟨?_, ?_, ?_⟩
  · intro d
    constructor
    · intro h
      match d with
      | none => exact Or.inl rfl
      | some [] => exact Or.inr rfl
      | some (c :: cs) =>
        exfalso
        cases hb : pickBest c cs with
        | none => simp [decodeBg, hb] at h
        | some b =>
          cases hm : b.mask with
          | none => simp [decodeBg, hb, hm] at h
          | some m =>
            by_cases hme : m = ""
            · simp [decodeBg, hb, hm, if_pos hme] at h
            · simp [decodeBg, hb, hm, if_neg hme] at h
    · intro h
      rcases h with h | h <;> rw [h] <;> rfl
  · intro c cs
    cases hb : pickBest c cs with
    | none => simp [decodeBg, hb, maskFalsy]
    | some b =>
      cases hm : b.mask with
      | none => simp [decodeBg, hb, hm, maskFalsy]
      | some m =>
        by_cases hme : m = ""
        · subst hme
          simp [decodeBg, hb, hm, maskFalsy]
        · simp [decodeBg, hb, hm, if_neg hme, maskFalsy, hme]
  · intro c cs b m hb hm hme
    simp [decodeBg, hb, hm, if_neg hme]

/-- Counterexample to claim C5 as stated: the array `[{score: 1, mask: ""}]`
has a selected maximum-score candidate that does possess a `mask` field
(it is the empty string), yet the decode path yields `MissingField` rather
than returning the mask as a data URL. -/
theorem claim5_counterexample :
    decodeBg (some [some ⟨some 1, some ""⟩]) = .missingField ∧
    (⟨some 1, some ""⟩ : Candidate).mask ≠ none := by
  constructor
  · rfl
  · intro h
    exact Option.noConfusion h

/-- Witness for the amended claim C5 at a concrete input: a single candidate
with score 1 and mask "abc" decodes to the data-URL image. -/
theorem claim5_witness :
    decodeBg (some [some ⟨some 1, some "abc"⟩]) = .mask ("data:image/png;base64," ++ "abc") :=
  claim5_decode_characterization.2.2 (some ⟨some 1, some "abc"⟩) [] ⟨some 1, some "abc"⟩ "abc"
    rfl rfl (by decide)

theorem pickBest_all_none_score (c : Candidate) (cs : List Candidate)
    (h : ∀ x ∈ cs, x.score = none) :
    pickBest (some c) (cs.map some) = some c := by
  induction cs generalizing c with
  | nil => rfl
  | cons i t ih =>
    have hi : i.score = none := h i (List.mem_cons_self i t)
    have hstep : stepBest (some c) (some i) = some c := by
      simp [stepBest, hi, scoreGt]
    simp only [List.map_cons, pickBest, List.foldl_cons, hstep]
    exact ih c (fun x hx => h x (List.mem_cons_of_mem i hx))

/-- Claim C10: mask selection is decided by score alone — (i) if the
maximum-score entry of an all-numeric-score array lacks a `mask` field the
decode path yields `MissingField`, no matter what masks the other entries
carry; (ii) an entry without a score is never preferred over the running
accumulator; (iii) an array whose entries all lack scores yields its first
entry. -/
theorem claim10_score_only_selection :
    (∀ (p : ℚ × Option String) (ps : List (ℚ × Option String)),
      (bestP p ps).2 = none →
      decodeBg (some (((p :: ps).map toCand).map some)) = .missingField) ∧
    (∀ a i : Candidate, i.score = none → stepBest (some a) (some i) = some a) ∧
    (∀ (c : Candidate) (cs : List Candidate), (∀ x ∈ cs, x.score = none) →
      pickBest (some c) (cs.map some) = some c) := by
  refine ⟨?_, ?_, ?_⟩
  · intro p ps hmask
    have hmm : (toCand (bestP p ps)).mask = none := hmask
    have hpb := pickBest_toCand ps p
    rw [List.map_map] at hpb
    simp only [List.map_cons]
    simp [decodeBg, hpb, hmm]
  · intro a i hi
    simp [stepBest, hi, scoreGt]
  · exact fun c cs h => pickBest_all_none_score c cs h

/-- Witness for claim C10 at concrete inputs: in `[{score: 1}, {score: 0,
mask: "m"}]` the maximum-score entry lacks a mask and decoding fails with
`MissingField` although the other entry has one; and `[{mask: "a"},
{mask: "b"}]` (no scores at all) selects the first entry. -/
theorem claim10_witness :
    decodeBg (some [some (toCand (1, none)), some (toCand (0, some "m"))]) = .missingField ∧
    pickBest (some ⟨none, some "a"⟩) ([(⟨none, some "b"⟩ : Candidate)].map some) =
      some ⟨none, some "a"⟩ := by
  constructor
  · exact claim10_score_only_selection.1 (1, none) [(0, some "m")] rfl
  · exact claim10_score_only_selection.2.2 ⟨none, some "a"⟩ [⟨none, some "b"⟩]
      (by intro x hx; simp only [List.mem_singleton] at hx; rw [hx])

/-- The base64 alphabet used by `FileReader.readAsDataURL` data URLs. -/
def b64chars : List Char :=
  ['A', 'B', 'C', 'D', 'E', 'F', 'G', 'H', 'I', 'J', 'K', 'L', 'M',
   'N', 'O', 'P', 'Q', 'R', 'S', 'T', 'U', 'V', 'W', 'X', 'Y', 'Z',
   'a', 'b', 'c', 'd', 'e', 'f', 'g', 'h', 'i', 'j', 'k', 'l', 'm',
   'n', 'o', 'p', 'q', 'r', 's', 't', 'u', 'v', 'w', 'x', 'y', 'z',
   '0', '1', '2', '3', '4', '5', '6', '7', '8', '9', '+', '/']

/-- Character for a sextet value. -/
def tbl (n : Nat) : Char :=
  b64chars.getD n 'A'

/-- Sextet value of a base64 character. -/
def invTbl (c : Char) : Option Nat :=
  b64chars.findIdx? (fun x => x = c)

/-- Modelled from the spec: the base64 text produced by
`FileReader.readAsDataURL` for a byte sequence (bytes are `Nat`s below 256),
standard RFC 4648 alphabet with `=` padding. -/
def b64encode : List Nat → List Char
  | [] => []
  | [a] => [tbl (a / 4), tbl (a % 4 * 16), '=', '=']
  | [a, b] => [tbl (a / 4), tbl (a % 4 * 16 + b / 16), tbl (b % 16 * 4), '=']
  | a :: b :: c :: rest =>
    tbl (a / 4) :: tbl (a % 4 * 16 + b / 16) :: tbl (b % 16 * 4 + c / 64) :: tbl (c % 64) ::
      b64encode rest

/-- Base64 decoding (inverse direction of the round-trip property). -/
def b64decode : List Char → Option (List Nat)
  | [] => some []
  | c0 :: c1 :: c2 :: c3 :: rest =>
    if c2 = '=' ∧ c3 = '=' ∧ rest = [] then do
      let d0 ← invTbl c0
      let d1 ← invTbl c1
      some [d0 * 4 + d1 / 16]
    else if c3 = '=' ∧ rest = [] then do
      let d0 ← invTbl c0
      let d1 ← invTbl c1
      let d2 ← invTbl c2
      some [d0 * 4 + d1 / 16, d1 % 16 * 16 + d2 / 4]
    else do
      let d0 ← invTbl c0
      let d1 ← invTbl c1
      let d2 ← invTbl c2
      let d3 ← invTbl c3
      let tail ← b64decode rest
      some ((d0 * 4 + d1 / 16) :: (d1 % 16 * 16 + d2 / 4) :: (d2 % 4 * 64 + d3) :: tail)
  | _ => none

theorem invTbl_tbl (n : Nat) (h : n < 64) : invTbl (tbl n) = some n := by
  revert n h
  decide

theorem tbl_ne_pad (n : Nat) : tbl n ≠ '=' := by
  rcases Nat.lt_or_ge n 64 with h | h
  · revert n h
    decide
  · have : tbl n = 'A' := by
      unfold tbl
      exact List.getD_eq_default _ _ (by simpa [b64chars] using h)
    rw [this]
    decide

/-- Base64 decoding inverts encoding on byte sequences (round-trip). -/
theorem b64_roundtrip (bs : List Nat) (h : ∀ b ∈ bs, b < 256) :
    b64decode (b64encode bs) = some bs := by
  induction bs using b64encode.induct with
  | case1 => rfl
  | case2 a =>
    have ha : a < 256 := h a (by simp)
    simp only [b64encode, b64decode]
    rw [if_pos (by simp)]
    rw [invTbl_tbl _ (by omega), invTbl_tbl _ (by omega)]
    simp only [Option.bind_eq_bind, Option.some_bind]
    congr 2
    omega
  | case3 a b =>
    have ha : a < 256 := h a (by simp)
    have hb : b < 256 := h b (by simp)
    simp only [b64encode, b64decode]
    rw [if_neg (by intro hc; exact tbl_ne_pad _ hc.1)]
    rw [if_pos (by simp)]
    rw [invTbl_tbl _ (by omega), invTbl_tbl _ (by omega), invTbl_tbl _ (by omega)]
    simp only [Option.bind_eq_bind, Option.some_bind]
    congr 1
    congr 1
    · omega
    · congr 1
      omega
  | case4 a b c rest ih =>
    have ha : a < 256 := h a (by simp)
    have hb : b < 256 := h b (by simp)
    have hc : c < 256 := h c (by simp)
    have hrest : ∀ x ∈ rest, x < 256 := fun x hx => h x (by simp [hx])
    simp only [b64encode, b64decode]
    rw [if_neg (by intro hcon; exact tbl_ne_pad _ hcon.1)]
    rw [if_neg (by intro hcon; exact tbl_ne_pad _ hcon.1)]
    rw [invTbl_tbl _ (by omega), invTbl_tbl _ (by omega), invTbl_tbl _ (by omega),
        invTbl_tbl _ (by omega)]
    rw [ih hrest]
    simp only [Option.bind_eq_bind, Option.some_bind]
    congr 1
    congr 1
    · omega
    · congr 1
      · omega
      · congr 1
        omega

/-- JavaScript `result.indexOf(c)`: index of the first occurrence. -/
def indexOfChar (c : Char) : List Char → Option Nat
  | [] => none
  | x :: xs => if x = c then some 0 else (indexOfChar c xs).map (· + 1)

/-- The resolve step of `fileToBase64`: given the string produced by
`FileReader.readAsDataURL`, drop everything up to and including the first
comma (`result.slice(commaIndex + 1)`); a string without a comma is returned
unchanged. -/
def fileToBase64 (result : List Char) : List Char :=
  match indexOfChar ',' result with
  | none => result
  | some i => result.drop (i + 1)

theorem indexOfChar_not_mem (c : Char) (l : List Char) (h : c ∉ l) :
    indexOfChar c l = none := by
  induction l with
  | nil => rfl
  | cons x xs ih =>
    have hx : ¬x = c := fun hc => h (by rw [← hc]; exact List.mem_cons_self x xs)
    simp only [indexOfChar, if_neg hx, ih (fun hc => h (List.mem_cons_of_mem x hc))]
    rfl

theorem indexOfChar_append_cons (c : Char) (p r : List Char) (h : c ∉ p) :
    indexOfChar c (p ++ c :: r) = some p.length := by
  induction p with
  | nil => simp [indexOfChar]
  | cons x xs ih =>
    have hx : ¬x = c := fun hc => h (by rw [← hc]; exact List.mem_cons_self x xs)
    simp only [List.cons_append, indexOfChar, if_neg hx, List.append_eq]
    rw [ih (fun hc => h (List.mem_cons_of_mem x hc))]
    rfl

theorem fileToBase64_strip (p r : List Char) (h : ',' ∉ p) :
    fileToBase64 (p ++ ',' :: r) = r := by
  unfold fileToBase64
  rw [indexOfChar_append_cons ',' p r h]
  show List.drop (p.length + 1) (p ++ ',' :: r) = r
  have hsplit : p ++ ',' :: r = (p ++ [',']) ++ r := by simp
  rw [hsplit]
  have hlen : p.length + 1 = (p ++ [',']).length := by simp
  rw [hlen, List.drop_left]

/-- Claim C7: `fileToBase64` strips exactly one leading data-URL prefix —
everything up to and including the first comma — when present; an input with
no comma is returned unchanged; and the stripped base64 text of a data URL
decodes back to the original image bytes (round-trip). -/
theorem claim7_base64_strip_roundtrip :
    (∀ p r : List Char, ',' ∉ p → fileToBase64 (p ++ ',' :: r) = r) ∧
    (∀ s : List Char, ',' ∉ s → fileToBase64 s = s) ∧
    (∀ (p : List Char) (bs : List Nat), ',' ∉ p → (∀ b ∈ bs, b < 256) →
      b64decode (fileToBase64 (p ++ ',' :: b64encode bs)) = some bs) := by
  refine ⟨fileToBase64_strip, ?_, ?_⟩
  · intro s hs
    unfold fileToBase64
    rw [indexOfChar_not_mem ',' s hs]
  · intro p bs hp hbs
    rw [fileToBase64_strip p _ hp, b64_roundtrip bs hbs]

/-- Witness for claim C7 at a concrete input: the data URL
`data:image/png;base64,` followed by the encoding of the bytes [72, 105]
strips to the base64 text alone and decodes back to [72, 105]. -/
theorem claim7_witness :
    fileToBase64 ("data:image/png;base64".data ++ ',' :: b64encode [72, 105]) =
      b64encode [72, 105] ∧
    b64decode (fileToBase64 ("data:image/png;base64".data ++ ',' :: b64encode [72, 105])) =
      some [72, 105] := by
  constructor
  · exact claim7_base64_strip_roundtrip.1 "data:image/png;base64".data (b64encode [72, 105])
      (by decide)
  · exact claim7_base64_strip_roundtrip.2.2 "data:image/png;base64".data [72, 105]
      (by decide) (by decide)

/-- Base clause of `buildPrompt` (three-model variant and `app.js`):
a hero shot of the food with commercial-photography qualifiers. -/
def promptBase (food : String) : String :=
  food ++ " hero shot, ultra realistic, commercial food photography, " ++
    "shot on a dark matte table, shallow depth of field, cinematic lighting"

/-- Clause appended for "Background cleaning". -/
def bgClause : String :=
  ", isolated on a clean soft gradient background, no clutter, product catalog look, web shop ready"

/-- Clause appended for "Quality improvement". -/
def qualityClause : String :=
  ", crisp 4k detail, noise-free, high dynamic range, sharp textures, studio-grade retouching"

/-- Clause appended for "Style" and for any unrecognized mode. -/
def styleClause : String :=
  ", modern editorial style, subtle color grading, perfect for a sales landing page hero banner"

/-- `buildPrompt(food, editType)` of the three-model variant / `app.js`. -/
def buildPrompt (food editType : String) : String :=
  if editType = "Background cleaning" then promptBase food ++ bgClause
  else if editType = "Quality improvement" then promptBase food ++ qualityClause
  else promptBase food ++ styleClause

theorem promptBase_append_data (food c : String) :
    (promptBase food ++ c).data =
      food.data ++
        ((" hero shot, ultra realistic, commercial food photography, " ++
          "shot on a dark matte table, shallow depth of field, cinematic lighting").data ++
          c.data) := by
  simp [promptBase, String.data_append, List.append_assoc]

theorem buildPrompt_data (food editType : String) :
    ∃ t : List Char, (buildPrompt food editType).data = food.data ++ t ∧ t ≠ [] := by
  unfold buildPrompt
  by_cases h1 : editType = "Background cleaning"
  · rw [if_pos h1]
    exact ⟨_, promptBase_append_data food bgClause, by decide⟩
  · rw [if_neg h1]
    by_cases h2 : editType = "Quality improvement"
    · rw [if_pos h2]
      exact ⟨_, promptBase_append_data food qualityClause, by decide⟩
    · rw [if_neg h2]
      exact ⟨_, promptBase_append_data food styleClause, by decide⟩

/-- Claim C4: `buildPrompt` is pure, deterministic and total: every output is
a non-empty string starting with (hence containing verbatim) the food string;
the three recognized modes get their specific clauses, any other mode value
gets the generic style clause; identical inputs yield identical outputs. -/
theorem claim4_buildPrompt :
    (∀ food editType : String,
      buildPrompt food editType ≠ "" ∧
      (∃ t : List Char, (buildPrompt food editType).data = food.data ++ t)) ∧
    (∀ food : String,
      buildPrompt food "Background cleaning" = promptBase food ++ bgClause ∧
      buildPrompt food "Quality improvement" = promptBase food ++ qualityClause ∧
      buildPrompt food "Style" = promptBase food ++ styleClause) ∧
    (∀ food editType : String,
      editType ≠ "Background cleaning" → editType ≠ "Quality improvement" →
      buildPrompt food editType = promptBase food ++ styleClause) ∧
    (∀ f₁ e₁ f₂ e₂ : String, f₁ = f₂ → e₁ = e₂ → buildPrompt f₁ e₁ = buildPrompt f₂ e₂) := by
  refine ⟨?_, ?_, ?_, ?_⟩
  · intro food editType
    obtain ⟨t, ht, hne⟩ := buildPrompt_data food editType
    constructor
    · intro hc
      have : (buildPrompt food editType).data = [] := by rw [hc]
      rw [ht] at this
      exact hne (List.append_eq_nil.mp this).2
    · exact ⟨t, ht⟩
  · intro food
    refine ⟨rfl, ?_, rfl⟩
    unfold buildPrompt
    rw [if_neg (by decide), if_pos rfl]
  · intro food editType h1 h2
    unfold buildPrompt
    rw [if_neg h1, if_neg h2]
  · intro f₁ e₁ f₂ e₂ hf he
    rw [hf, he]

/-- Witness for claim C4 at concrete inputs: an unrecognized mode string
falls back to the generic style clause. -/
theorem claim4_witness :
    buildPrompt "Pizza" "Sepia" = promptBase "Pizza" ++ styleClause :=
  claim4_buildPrompt.2.2.1 "Pizza" "Sepia" (by decide) (by decide)

/-- `HF_ENDPOINTS.style` of the three-model variant. -/
def styleEndpoint : String :=
  "https://router.huggingface.co/hf-inference/models/stabilityai/stable-diffusion-xl-base-1.0"

/-- `HF_ENDPOINTS.background` of the three-model variant. -/
def backgroundEndpoint : String :=
  "https://router.huggingface.co/hf-inference/models/briaai/RMBG-2.0"

/-- `HF_ENDPOINTS.quality` of the three-model variant. -/
def qualityEndpoint : String :=
  "https://router.huggingface.co/hf-inference/models/ai-forever/Real-ESRGAN"

/-- A user-supplied image file: the data URL `FileReader.readAsDataURL`
would produce for it, its raw bytes, and its declared MIME type. -/
structure ImageFile where
  dataUrl : String
  bytes : List Nat
  mime : String
  deriving DecidableEq

/-- How each endpoint's successful response is handled by the caller:
`response.blob()` (binary image) or `response.json()` with embedded base64. -/
inductive RespKind where
  | binaryImage
  | jsonBase64
  deriving DecidableEq

/-- Outbound request body: a JSON envelope with an `inputs` string, or raw
image bytes. -/
inductive ReqBody where
  | jsonInputs (inputs : String)
  | rawBytes (bytes : List Nat)
  deriving DecidableEq

/-- An outbound inference request as constructed by the `call*` functions. -/
structure Request where
  url : String
  method : String
  authorization : String
  contentType : String
  accept : String
  body : ReqBody
  respKind : RespKind
  deriving DecidableEq

/-- Request of `callStyleGeneration`: SDXL text-to-image. -/
def mkStyleRequest (apiKey prompt : String) : Request :=
  ⟨styleEndpoint, "POST", "Bearer " ++ apiKey, "application/json", "image/png",
    .jsonInputs prompt, .binaryImage⟩

/-- Request of `callBackgroundRemoval`: RMBG-2.0 with the file's base64
(data-URL prefix stripped) in the JSON envelope. -/
def mkBackgroundRequest (apiKey : String) (f : ImageFile) : Request :=
  ⟨backgroundEndpoint, "POST", "Bearer " ++ apiKey, "application/json", "application/json",
    .jsonInputs (String.mk (fileToBase64 f.dataUrl.data)), .jsonBase64⟩

/-- Request of `callQualityImprovement`: Real-ESRGAN with raw image bytes;
`imageFile.type || "application/octet-stream"`. -/
def mkQualityRequest (apiKey : String) (f : ImageFile) : Request :=
  ⟨qualityEndpoint, "POST", "Bearer " ++ apiKey,
    (if f.mime = "" then "application/octet-stream" else f.mime), "image/png",
    .rawBytes f.bytes, .binaryImage⟩

/-- JavaScript `String.prototype.trim`: strip leading and trailing
whitespace. -/
def jsTrim (s : String) : String :=
  String.mk (((s.data.dropWhile Char.isWhitespace).reverse.dropWhile
    Char.isWhitespace).reverse)

/-- Validation message for a missing API key. -/
def apiKeyErrorMsg : String :=
  "Please paste your Hugging Face API key before generating."

/-- Validation message for a missing photo in a mode that needs one. -/
def uploadErrorMsg (editType : String) : String :=
  "Please upload a food photo for “" ++ editType ++ "”. Style mode can work without a file."

/-- Observable outcome of the pre-network phase of `handleGenerateClick`:
either a validation error shown with zero network calls, or the single
outbound request the handler proceeds to issue. -/
inductive HandlerAction where
  | validationError (message : String)
  | request (r : Request)
  deriving DecidableEq

/-- `handleGenerateClick` of the three-model variant, up to the point where
the outbound request is determined: trim the key, validate, build the
prompt, and dispatch on the edit mode (unknown modes fall back to style
generation).  The `none` photo branches inside the dispatch are unreachable
because of the validation guard. -/
def handleGenerateClick (apiKeyRaw food editType : String) (photoFile : Option ImageFile) :
    HandlerAction :=
  let apiKey := jsTrim apiKeyRaw
  if apiKey = "" then
    .validationError apiKeyErrorMsg
  else if (editType = "Background cleaning" ∨ editType = "Quality improvement") ∧
      photoFile = none then
    .validationError (uploadErrorMsg editType)
  else
    let prompt := buildPrompt food editType
    if editType = "Style" then
      .request (mkStyleRequest apiKey prompt)
    else if editType = "Background cleaning" then
      match photoFile with
      | some f => .request (mkBackgroundRequest apiKey f)
      | none => .validationError (uploadErrorMsg editType)
    else if editType = "Quality improvement" then
      match photoFile with
      | some f => .request (mkQualityRequest apiKey f)
      | none => .validationError (uploadErrorMsg editType)
    else
      .request (mkStyleRequest apiKey prompt)

/-- Claim C2: the mode-to-endpoint dispatch is total — each of the three edit
modes resolves to its own distinct remote URL, Style and Quality improvement
declare binary image responses, Background cleaning declares a JSON response
with embedded base64 — and for a valid key the handler issues exactly the
corresponding request. -/
theorem claim2_endpoint_registry :
    styleEndpoint ≠ backgroundEndpoint ∧ styleEndpoint ≠ qualityEndpoint ∧
    backgroundEndpoint ≠ qualityEndpoint ∧
    (∀ k p, (mkStyleRequest k p).url = styleEndpoint ∧
      (mkStyleRequest k p).respKind = .binaryImage) ∧
    (∀ k f, (mkBackgroundRequest k f).url = backgroundEndpoint ∧
      (mkBackgroundRequest k f).respKind = .jsonBase64) ∧
    (∀ k f, (mkQualityRequest k f).url = qualityEndpoint ∧
      (mkQualityRequest k f).respKind = .binaryImage) ∧
    (∀ a food ph, jsTrim a ≠ "" →
      handleGenerateClick a food "Style" ph =
        .request (mkStyleRequest (jsTrim a) (buildPrompt food "Style"))) ∧
    (∀ a food f, jsTrim a ≠ "" →
      handleGenerateClick a food "Background cleaning" (some f) =
        .request (mkBackgroundRequest (jsTrim a) f)) ∧
    (∀ a food f, jsTrim a ≠ "" →
      handleGenerateClick a food "Quality improvement" (some f) =
        .request (mkQualityRequest (jsTrim a) f)) := by
  refine ⟨by decide, by decide, by decide, fun k p => ⟨rfl, rfl⟩, fun k f => ⟨rfl, rfl⟩,
    fun k f => ⟨rfl, rfl⟩, ?_, ?_, ?_⟩
  · intro a food ph h
    simp [handleGenerateClick, h]
  · intro a food f h
    simp [handleGenerateClick, h]
  · intro a food f h
    simp [handleGenerateClick, h]

/-- Witness for claim C2 at concrete inputs: key "k" and a concrete photo
produce the three expected requests. -/
theorem claim2_witness :
    handleGenerateClick "k" "Pizza" "Style" none =
      .request (mkStyleRequest "k" (buildPrompt "Pizza" "Style")) ∧
    handleGenerateClick "k" "Pizza" "Background cleaning" (some ⟨"d,AA", [0], "image/png"⟩) =
      .request (mkBackgroundRequest "k" ⟨"d,AA", [0], "image/png"⟩) ∧
    handleGenerateClick "k" "Pizza" "Quality improvement" (some ⟨"d,AA", [0], "image/png"⟩) =
      .request (mkQualityRequest "k" ⟨"d,AA", [0], "image/png"⟩) := by
  refine ⟨?_, ?_, ?_⟩
  · have h := claim2_endpoint_registry.2.2.2.2.2.2.1 "k" "Pizza" none (by decide)
    simpa using h
  · have h := claim2_endpoint_registry.2.2.2.2.2.2.2.1 "k" "Pizza" ⟨"d,AA", [0], "image/png"⟩
      (by decide)
    simpa using h
  · have h := claim2_endpoint_registry.2.2.2.2.2.2.2.2 "k" "Pizza" ⟨"d,AA", [0], "image/png"⟩
      (by decide)
    simpa using h

/-- Claim C3: validation happens before any network call — an empty trimmed
API key yields a validation error and no request; Background cleaning or
Quality improvement without a photo yields a validation error and no
request; Style with no photo proceeds to the style request normally. -/
theorem claim3_validation :
    (∀ a food editType ph, jsTrim a = "" →
      handleGenerateClick a food editType ph = .validationError apiKeyErrorMsg) ∧
    (∀ a food editType, jsTrim a ≠ "" →
      (editType = "Background cleaning" ∨ editType = "Quality improvement") →
      handleGenerateClick a food editType none = .validationError (uploadErrorMsg editType)) ∧
    (∀ a food, jsTrim a ≠ "" →
      handleGenerateClick a food "Style" none =
        .request (mkStyleRequest (jsTrim a) (buildPrompt food "Style"))) := by
  refine ⟨?_, ?_, ?_⟩
  · intro a food editType ph h
    simp [handleGenerateClick, h]
  · intro a food editType h he
    rcases he with he | he <;> subst he <;> simp [handleGenerateClick, h]
  · intro a food h
    simp [handleGenerateClick, h]

/-- Witness for claim C3 at concrete inputs: a whitespace-only key fails
validation; Background cleaning without a photo fails validation; Style
without a photo issues the style request. -/
theorem claim3_witness :
    handleGenerateClick "  " "Pizza" "Style" none = .validationError apiKeyErrorMsg ∧
    handleGenerateClick "k" "Pizza" "Background cleaning" none =
      .validationError (uploadErrorMsg "Background cleaning") ∧
    handleGenerateClick "k" "Pizza" "Style" none =
      .request (mkStyleRequest (jsTrim "k") (buildPrompt "Pizza" "Style")) := by
  refine ⟨?_, ?_, ?_⟩
  · exact claim3_validation.1 "  " "Pizza" "Style" none (by decide)
  · exact claim3_validation.2.1 "k" "Pizza" "Background cleaning" (by decide) (Or.inl rfl)
  · exact claim3_validation.2.2 "k" "Pizza" (by decide)

/-- Claim C8: any edit-mode string other than the three recognized modes
dispatches exactly as Style mode does — same validation, same endpoint, same
request — and in particular never reaches a failure branch of its own. -/
theorem claim8_unknown_mode_fallback (a food editType : String) (ph : Option ImageFile)
    (h1 : editType ≠ "Style") (h2 : editType ≠ "Background cleaning")
    (h3 : editType ≠ "Quality improvement") :
    handleGenerateClick a food editType ph = handleGenerateClick a food "Style" ph ∧
    (jsTrim a ≠ "" →
      handleGenerateClick a food editType ph =
        .request (mkStyleRequest (jsTrim a) (buildPrompt food "Style"))) := by
  have hprompt : buildPrompt food editType = buildPrompt food "Style" := by
    unfold buildPrompt
    rw [if_neg h2, if_neg h3, if_neg (by decide), if_neg (by decide)]
  constructor
  · by_cases hk : jsTrim a = ""
    · simp [handleGenerateClick, hk]
    · simp [handleGenerateClick, hk, h1, h2, h3, hprompt]
  · intro hk
    simp [handleGenerateClick, hk, h1, h2, h3, hprompt]

/-- Witness for claim C8 at a concrete input: the unknown mode "Auto"
behaves exactly as Style mode. -/
theorem claim8_witness :
    handleGenerateClick "k" "Pizza" "Auto" none = handleGenerateClick "k" "Pizza" "Style" none ∧
    handleGenerateClick "k" "Pizza" "Auto" none =
      .request (mkStyleRequest (jsTrim "k") (buildPrompt "Pizza" "Style")) := by
  have h := claim8_unknown_mode_fallback "k" "Pizza" "Auto" none (by decide) (by decide) (by decide)
  exact ⟨h.1, h.2 (by decide)⟩

/-- Claim C9: in Style mode the constructed request is identical whether or
not a source image is supplied — the outcome of the handler does not depend
on the photo argument at all — and the request body is the JSON prompt
envelope, carrying no image bytes. -/
theorem claim9_style_ignores_image :
    (∀ a food ph₁ ph₂,
      handleGenerateClick a food "Style" ph₁ = handleGenerateClick a food "Style" ph₂) ∧
    (∀ a food ph, jsTrim a ≠ "" →
      handleGenerateClick a food "Style" ph =
        .request (mkStyleRequest (jsTrim a) (buildPrompt food "Style")) ∧
      (mkStyleRequest (jsTrim a) (buildPrompt food "Style")).body =
        .jsonInputs (buildPrompt food "Style")) := by
  constructor
  · intro a food ph₁ ph₂
    by_cases hk : jsTrim a = "" <;> simp [handleGenerateClick, hk]
  · intro a food ph hk
    exact ⟨by simp [handleGenerateClick, hk], rfl⟩

/-- Witness for claim C9 at concrete inputs: with and without a photo, Style
mode issues the same request, whose body is the prompt envelope. -/
theorem claim9_witness :
    handleGenerateClick "k" "Pizza" "Style" (some ⟨"d,AA", [7], "image/png"⟩) =
      handleGenerateClick "k" "Pizza" "Style" none ∧
    handleGenerateClick "k" "Pizza" "Style" none =
      .request (mkStyleRequest (jsTrim "k") (buildPrompt "Pizza" "Style")) := by
  constructor
  · exact claim9_style_ignores_image.1 "k" "Pizza" (some ⟨"d,AA", [7], "image/png"⟩) none
  · exact (claim9_style_ignores_image.2 "k" "Pizza" none (by decide)).1

/-- JavaScript `detail.slice(0, n)`: the first `n` characters. -/
def sliceTo (s : String) (n : Nat) : String :=
  String.mk (s.data.take n)

/-- `errorDetail && errorDetail.length > bound ? errorDetail.slice(0, bound) + "…"
: errorDetail` — the truncation step shared by all error paths, with its
variant-specific bound. -/
def shortDetailOf (errorDetail : String) (bound : Nat) : String :=
  if errorDetail ≠ "" ∧ errorDetail.length > bound then sliceTo errorDetail bound ++ "…"
  else errorDetail

/-- Mode-specific base sentence of `callStyleGeneration`. -/
def styleBaseMessage : String :=
  "Style generation failed (SDXL). The model may be loading or your key may not have access."

/-- Failure message of `callStyleGeneration` for a non-success response:
`bodyText` is the textual error body, `none` when reading it failed (the
failure is swallowed and treated as empty detail); bound 160. -/
def styleErrorMessage (bodyText : Option String) : String :=
  if shortDetailOf (bodyText.getD "") 160 ≠ "" then
    styleBaseMessage ++ " Details: " ++ shortDetailOf (bodyText.getD "") 160
  else styleBaseMessage

/-- Failure message of the single-endpoint variant's `generateImage`:
`HF Inference error: <status> <statusText>.` joined with the optional
truncated detail; bound 300. -/
def hfInferenceErrorMessage (status : Nat) (statusText : String) (bodyText : Option String) :
    String :=
  if shortDetailOf (bodyText.getD "") 300 ≠ "" then
    ("HF Inference error: " ++ toString status ++ " " ++ statusText ++ ".") ++ " " ++
      ("Details: " ++ shortDetailOf (bodyText.getD "") 300)
  else "HF Inference error: " ++ toString status ++ " " ++ statusText ++ "."

theorem append_ellipsis_ne_empty (s : String) : s ++ "…" ≠ "" := by
  intro hc
  have h2 : (s ++ "…").data = [] := by rw [hc]
  rw [String.data_append] at h2
  exact absurd (List.append_eq_nil.mp h2).2 (by decide)

theorem strLength_data (s : String) : s.length = s.data.length :=
  rfl

theorem sliceTo_length (s : String) (n : Nat) : (sliceTo s n).length = min n s.length := by
  rw [strLength_data, strLength_data]
  exact List.length_take n s.data

theorem shortDetailOf_long (d : String) (n : Nat) (h : d.length > n) :
    shortDetailOf d n = sliceTo d n ++ "…" := by
  have hne : d ≠ "" := by
    intro hc
    rw [hc] at h
    have h0 : ("" : String).length = 0 := rfl
    omega
  exact if_pos ⟨hne, h⟩

theorem shortDetailOf_short (d : String) (n : Nat) (h : ¬d.length > n) :
    shortDetailOf d n = d :=
  if_neg (fun hc => h hc.2)

/-- Amended claim C6: for a textual error body over the variant bound (160
for `callStyleGeneration`, 300 for the single-endpoint `generateImage`),
the failure message is the mode-specific base sentence followed by the
detail truncated to exactly the bound plus an ellipsis marker; a body longer
than the entire message (such as the cited 500-character body) never appears
in it in full; bodies at or under the bound appear untruncated; a failed
body read is treated as empty detail, yielding the base sentence alone. -/
theorem claim6_truncation :
    (∀ body : String, body.length > 160 →
      styleErrorMessage (some body) =
        styleBaseMessage ++ " Details: " ++ (sliceTo body 160 ++ "…") ∧
      (sliceTo body 160).length = 160) ∧
    (∀ body : String, body ≠ "" → ¬body.length > 160 →
      styleErrorMessage (some body) = styleBaseMessage ++ " Details: " ++ body) ∧
    (styleErrorMessage none = styleBaseMessage ∧
      styleErrorMessage (some "") = styleBaseMessage) ∧
    (∀ body : String, (styleErrorMessage (some body)).length < body.length →
      ¬body.data <:+: (styleErrorMessage (some body)).data) ∧
    (∀ (status : Nat) (statusText body : String), body.length > 300 →
      hfInferenceErrorMessage status statusText (some body) =
        ("HF Inference error: " ++ toString status ++ " " ++ statusText ++ ".") ++ " " ++
          ("Details: " ++ (sliceTo body 300 ++ "…"))) := by
  refine ⟨?_, ?_, ⟨rfl, rfl⟩, ?_, ?_⟩
  · intro body h
    constructor
    · unfold styleErrorMessage
      simp only [Option.getD_some]
      rw [shortDetailOf_long body 160 h]
      rw [if_pos (append_ellipsis_ne_empty _)]
    · rw [sliceTo_length]
      omega
  · intro body hne h
    unfold styleErrorMessage
    simp only [Option.getD_some]
    rw [shortDetailOf_short body 160 h]
    rw [if_pos hne]
  · intro body hlt hinf
    have hle := List.IsInfix.length_le hinf
    rw [← strLength_data, ← strLength_data] at hle
    omega
  · intro status statusText body h
    unfold hfInferenceErrorMessage
    simp only [Option.getD_some]
    rw [shortDetailOf_long body 300 h]
    rw [if_pos (append_ellipsis_ne_empty _)]

set_option maxRecDepth 8192 in
/-- Counterexample to claim C6 as stated ("never contains the full body"):
for the 161-character body consisting solely of ellipsis characters, the
truncated detail plus the appended ellipsis marker coincides with the whole
body, so the failure message does contain the full body. -/
theorem claim6_counterexample :
    (String.mk (List.replicate 161 '…')).length > 160 ∧
    (String.mk (List.replicate 161 '…')).data <:+:
      (styleErrorMessage (some (String.mk (List.replicate 161 '…')))).data := by
  constructor
  · show (List.replicate 161 '…').length > 160
    rw [List.length_replicate]
    omega
  · exact ⟨(styleBaseMessage ++ " Details: ").data, [], by decide⟩

set_option maxRecDepth 8192 in
/-- Witness for the amended claim C6 at a concrete input: a 500-character
body is truncated to 160 characters plus the ellipsis marker, and the full
body does not occur in the message. -/
theorem claim6_witness :
    styleErrorMessage (some (String.mk (List.replicate 500 'x'))) =
      styleBaseMessage ++ " Details: " ++ (sliceTo (String.mk (List.replicate 500 'x')) 160 ++ "…") ∧
    ¬(String.mk (List.replicate 500 'x')).data <:+:
      (styleErrorMessage (some (String.mk (List.replicate 500 'x')))).data := by
  constructor
  · exact (claim6_truncation.1 (String.mk (List.replicate 500 'x')) (by decide)).1
  · exact claim6_truncation.2.2.2.1 (String.mk (List.replicate 500 'x')) (by decide)
